import Mathlib

/-!
A verification model of the QCA KeyStore / KeyStoreManager subsystem declared
in `src/include/QtCrypto/qca_keystore.h`.  The repository ships only the
header (declarations), so the operational behaviour of the subsystem is
modelled from the specification's description of each operation; the enum
tags, the operation signatures and the capability comments come from the
header itself.
-/

namespace QCAKeyStore

/-- `KeyStoreEntry::Type` from qca_keystore.h lines 41-48. -/
inductive EntryType
  | TypeKeyBundle
  | TypeCertificate
  | TypeCRL
  | TypePGPSecretKey
  | TypePGPPublicKey
deriving DecidableEq, Repr

/-- `KeyStore::Type` from qca_keystore.h lines 138-145. -/
inductive KeyStoreType
  | System
  | User
  | Application
  | SmartCard
  | PGPKeyring
deriving DecidableEq, Repr

/-- Modelled from the spec: a KeyBundle is an opaque identity credential
(private key plus certificate chain), out of scope cryptographically; `none`
is the null bundle. -/
structure KeyBundle where
  data : Option Nat
deriving DecidableEq, Repr

/-- Modelled from the spec: an opaque certificate object; `none` is the null
certificate. -/
structure Certificate where
  data : Option Nat
deriving DecidableEq, Repr

def Certificate.isNull (c : Certificate) : Bool := c.data.isNone

/-- Modelled from the spec: an opaque certificate revocation list; `none` is
the null CRL. -/
structure CRL where
  data : Option Nat
deriving DecidableEq, Repr

def CRL.isNull (c : CRL) : Bool := c.data.isNone

/-- Modelled from the spec: the key material of a PGP key: a stable key id
plus the set of signatures/subkeys attached to it (a bitmask, so that a
keyring merge can combine two copies of the same key). -/
structure PGPMaterial where
  keyId : Nat
  sigs : Nat
deriving DecidableEq, Repr

/-- Modelled from the spec: a PGP key is null, or key material tagged secret
or public. -/
structure PGPKey where
  material : Option PGPMaterial
  isSecret : Bool
deriving DecidableEq, Repr

def PGPKey.isNull (k : PGPKey) : Bool := k.material.isNone

/-- The public half of a PGP key: same key material, secret part dropped. -/
def PGPKey.publicPart (k : PGPKey) : PGPKey :=
  { material := k.material, isSecret := false }

def nullPGPKey : PGPKey := { material := none, isSecret := false }

/-- The variant payload of a non-null entry: exactly one credential object,
consistent with the entry's kind (spec section 3, Entry invariant). -/
inductive EntryPayload
  | keyBundle (data : Nat)
  | certificate (data : Nat)
  | crl (data : Nat)
  | pgpSecretKey (material : PGPMaterial)
  | pgpPublicKey (material : PGPMaterial)
deriving DecidableEq, Repr

/-- The kind tag matching a payload. -/
def EntryPayload.entryType : EntryPayload → EntryType
  | .keyBundle _ => .TypeKeyBundle
  | .certificate _ => .TypeCertificate
  | .crl _ => .TypeCRL
  | .pgpSecretKey _ => .TypePGPSecretKey
  | .pgpPublicKey _ => .TypePGPPublicKey

/-- `KeyStoreEntry`: either the null sentinel (default-constructed) or one
credential object with its name and backend-stable id. -/
inductive KeyStoreEntry
  | null
  | entry (name : String) (id : String) (payload : EntryPayload)
deriving DecidableEq, Repr

def KeyStoreEntry.isNull : KeyStoreEntry → Bool
  | .null => true
  | .entry _ _ _ => false

/-- `KeyStoreEntry::type()`: the kind tag; a null entry reports the default
enum value `TypeKeyBundle` (value 0). -/
def KeyStoreEntry.type : KeyStoreEntry → EntryType
  | .null => .TypeKeyBundle
  | .entry _ _ p => p.entryType

def KeyStoreEntry.name : KeyStoreEntry → String
  | .null => ""
  | .entry n _ _ => n

def KeyStoreEntry.id : KeyStoreEntry → String
  | .null => ""
  | .entry _ i _ => i

/-- `KeyStoreEntry::certificate()`: the stored certificate if this entry
holds one, the null certificate otherwise. -/
def KeyStoreEntry.certificate : KeyStoreEntry → Certificate
  | .entry _ _ (.certificate d) => { data := some d }
  | _ => { data := none }

/-- `KeyStoreEntry::crl()`: the stored CRL if this entry holds one, the null
CRL otherwise. -/
def KeyStoreEntry.crl : KeyStoreEntry → CRL
  | .entry _ _ (.crl d) => { data := some d }
  | _ => { data := none }

/-- `KeyStoreEntry::pgpSecretKey()`: the stored secret PGP key if this entry
holds one, the null key otherwise. -/
def KeyStoreEntry.pgpSecretKey : KeyStoreEntry → PGPKey
  | .entry _ _ (.pgpSecretKey m) => { material := some m, isSecret := true }
  | _ => nullPGPKey

/-- `KeyStoreEntry::pgpPublicKey()`: per the header doc (lines 113-118), for
either a public or a secret PGP key entry this extracts the public key part;
on any other entry it is the null key. -/
def KeyStoreEntry.pgpPublicKey : KeyStoreEntry → PGPKey
  | .entry _ _ (.pgpPublicKey m) => { material := some m, isSecret := false }
  | .entry _ _ (.pgpSecretKey m) => { material := some m, isSecret := false }
  | _ => nullPGPKey

/-- Modelled from the spec (section 6): one raw credential object handed back
by a backend provider's `enumerate`, with its backend-stable entry id and
display name. -/
structure RawObject where
  objId : String
  objName : String
  payload : EntryPayload
deriving DecidableEq, Repr

/-- Modelled from the spec (section 6): one currently present backend
instance as reported by `discover()` — (store_id, store_kind, store_name,
read_only) — together with the credential objects it holds and whether it is
awaiting a passphrase. -/
structure BackendInstance where
  storeId : String
  storeKind : KeyStoreType
  storeName : String
  readOnly : Bool
  locked : Bool
  objects : List RawObject
deriving DecidableEq, Repr

/-- Modelled from the spec: the state of the backend-provider world — the
instances currently present, plus the ids of stores whose backend I/O is
currently failing transiently (BackendIO errors, spec section 7). -/
structure BackendState where
  instances : List BackendInstance
  failing : List String
deriving DecidableEq, Repr

def BackendState.findInstance (b : BackendState) (sid : String) :
    Option BackendInstance :=
  b.instances.find? (fun i => i.storeId == sid)

/-- Modelled from the spec: backend I/O against store `sid` can proceed only
when the store is present, not failing and not awaiting a passphrase
(Unavailable / BackendIO / NeedsUnlock in the error taxonomy, section 7). -/
def BackendState.ioReady (b : BackendState) (sid : String) :
    Option BackendInstance :=
  (b.findInstance sid).bind fun inst =>
    if b.failing.contains sid || inst.locked then none else some inst

/-- Modelled from the spec (section 6): `enumerate(store_id)`; `none` means
the store is gone, failing or locked. -/
def BackendState.enumerate (b : BackendState) (sid : String) :
    Option (List RawObject) :=
  (b.ioReady sid).map (fun i => i.objects)

/-- Replace the object with the same entry id, or append the object. -/
def upsertObj (obj : RawObject) : List RawObject → List RawObject
  | [] => [obj]
  | o :: os => if o.objId == obj.objId then obj :: os else o :: upsertObj obj os

/-- Apply `f` to the object list of the instance with store id `sid`. -/
def BackendState.updateObjects (b : BackendState) (sid : String)
    (f : List RawObject → List RawObject) : BackendState :=
  { b with
    instances := b.instances.map fun i =>
      if i.storeId == sid then { i with objects := f i.objects } else i }

/-- Events observable by the application (spec sections 4.2, 4.3):
the three per-store signals and the manager's availability signal, each
tagged with the id of the store concerned. -/
inductive Event
  | updated (storeId : String)
  | unavailable (storeId : String)
  | needPassphrase (storeId : String)
  | keyStoreAvailable (storeId : String)
deriving DecidableEq, Repr

/-- `KeyStore`: discovery metadata of one backend instance (spec section 3,
Store attributes); header accessors type/name/id/isReadOnly read these. -/
structure KeyStore where
  type : KeyStoreType
  name : String
  id : String
  readOnly : Bool
deriving DecidableEq, Repr

/-- `KeyStore::isReadOnly()` (qca_keystore.h lines 162-167). -/
def KeyStore.isReadOnly (s : KeyStore) : Bool := s.readOnly

/-- `KeyStore::holdsTrustedCertificates()`: capability derived solely from
the kind (header usage comment, lines 124-129: System and Application stores
hold trusted certificates and CRLs). -/
def KeyStore.holdsTrustedCertificates (s : KeyStore) : Bool :=
  s.type == .System || s.type == .Application

/-- `KeyStore::holdsIdentities()`: User, SmartCard and PGPKeyring stores hold
identities (KeyBundle or PGPSecretKey). -/
def KeyStore.holdsIdentities (s : KeyStore) : Bool :=
  s.type == .User || s.type == .SmartCard || s.type == .PGPKeyring

/-- `KeyStore::holdsPGPPublicKeys()`: only PGPKeyring stores. -/
def KeyStore.holdsPGPPublicKeys (s : KeyStore) : Bool :=
  s.type == .PGPKeyring

def rawToEntry (o : RawObject) : KeyStoreEntry :=
  .entry o.objName o.objId o.payload

/-- `KeyStore::entryList()`. Modelled from the spec (section 4.2): query the
backend, map each raw object into an entry; on backend I/O failure or if the
store became unavailable since creation, return the empty sequence. The
function is total: transient errors never escape as exceptions. -/
def KeyStore.entryList (s : KeyStore) (b : BackendState) : List KeyStoreEntry :=
  match b.enumerate s.id with
  | none => []
  | some objs => objs.map rawToEntry

/-- Modelled from the spec: shared shape of the three boolean `writeEntry`
overloads — NotSupported (read-only, kind mismatch) checked before any
backend I/O, then the upsert against the backend, emitting `updated` on
success. -/
def KeyStore.writeRaw (s : KeyStore) (b : BackendState) (compat : Bool)
    (obj : RawObject) : Bool × BackendState × List Event :=
  if s.isReadOnly then (false, b, [])
  else if !compat then (false, b, [])
  else
    match b.ioReady s.id with
    | none => (false, b, [])
    | some _ =>
        (true, b.updateObjects s.id (upsertObj obj), [Event.updated s.id])

/-- The backend entry id assigned to a written key bundle. -/
def kbEntryId : KeyBundle → String
  | { data := some d } => "kb:" ++ toString d
  | { data := none } => ""

/-- The backend entry id assigned to a written certificate. -/
def certEntryId : Certificate → String
  | { data := some d } => "cert:" ++ toString d
  | { data := none } => ""

/-- The backend entry id assigned to a written CRL. -/
def crlEntryId : CRL → String
  | { data := some d } => "crl:" ++ toString d
  | { data := none } => ""

/-- The backend entry id of a PGP key: derived from its stable key id. -/
def pgpEntryId (m : PGPMaterial) : String := "pgp:" ++ toString m.keyId

/-- `bool KeyStore::writeEntry(const KeyBundle &)` (header line 194).
Modelled from the spec section 4.2. -/
def KeyStore.writeEntryKB (s : KeyStore) (b : BackendState) (kb : KeyBundle) :
    Bool × BackendState × List Event :=
  match kb.data with
  | none => (false, b, [])
  | some d =>
      s.writeRaw b s.holdsIdentities { objId := kbEntryId kb, objName := "", payload := .keyBundle d }

/-- The raw backend object created for a written certificate. -/
def certRawObject (cert : Certificate) (d : Nat) : RawObject :=
  { objId := certEntryId cert, objName := "", payload := .certificate d }

/-- `bool KeyStore::writeEntry(const Certificate &)` (header line 201).
Modelled from the spec section 4.2. -/
def KeyStore.writeEntryCert (s : KeyStore) (b : BackendState) (cert : Certificate) :
    Bool × BackendState × List Event :=
  match cert.data with
  | none => (false, b, [])
  | some d => s.writeRaw b s.holdsTrustedCertificates (certRawObject cert d)

/-- `bool KeyStore::writeEntry(const CRL &)` (header line 208).
Modelled from the spec section 4.2. -/
def KeyStore.writeEntryCRL (s : KeyStore) (b : BackendState) (cl : CRL) :
    Bool × BackendState × List Event :=
  match cl.data with
  | none => (false, b, [])
  | some d =>
      s.writeRaw b s.holdsTrustedCertificates { objId := crlEntryId cl, objName := "", payload := .crl d }

/-- Keyring import merge (spec section 4.2): if a key with the same key id is
already stored, the import merges signature/subkey sets. -/
def mergeSigs (objs : List RawObject) (oid : String) (m : PGPMaterial) :
    PGPMaterial :=
  match objs.find? (fun o => o.objId == oid) with
  | some o =>
      match o.payload with
      | .pgpSecretKey old => { keyId := m.keyId, sigs := old.sigs ||| m.sigs }
      | .pgpPublicKey old => { keyId := m.keyId, sigs := old.sigs ||| m.sigs }
      | _ => m
  | none => m

/-- The raw backend object stored for an imported PGP key: the merged
material under the key's stable entry id, kept secret or public as the key
being written was. -/
def pgpRawObject (k : PGPKey) (m : PGPMaterial) (inst : BackendInstance) : RawObject :=
  { objId := pgpEntryId m, objName := "",
    payload :=
      if k.isSecret then EntryPayload.pgpSecretKey (mergeSigs inst.objects (pgpEntryId m) m)
      else EntryPayload.pgpPublicKey (mergeSigs inst.objects (pgpEntryId m) m) }

/-- `PGPKey KeyStore::writeEntry(const PGPKey &)` (header lines 210-217): the
distinguished PGP overload. Modelled from the spec section 4.2: on failure
(read-only, kind mismatch, null key, backend not ready) the null PGPKey is
returned and nothing happens; on success the return value is the canonical,
possibly merged, key as now stored in the keyring. -/
def KeyStore.writeEntryPGP (s : KeyStore) (b : BackendState) (k : PGPKey) :
    PGPKey × BackendState × List Event :=
  if s.isReadOnly then (nullPGPKey, b, [])
  else
    match k.material with
    | none => (nullPGPKey, b, [])
    | some m =>
        if !(s.type == KeyStoreType.PGPKeyring) then (nullPGPKey, b, [])
        else
          match b.ioReady s.id with
          | none => (nullPGPKey, b, [])
          | some inst =>
              ({ material := some (mergeSigs inst.objects (pgpEntryId m) m),
                 isSecret := k.isSecret },
               b.updateObjects s.id (upsertObj (pgpRawObject k m inst)),
               [Event.updated s.id])

/-- `bool KeyStore::removeEntry(const QString &id)` (header lines 219-224).
Modelled from the spec section 4.2: fails if read-only, if no entry with
that id exists, or on backend I/O error; emits `updated` on success. -/
def KeyStore.removeEntry (s : KeyStore) (b : BackendState) (eid : String) :
    Bool × BackendState × List Event :=
  if s.isReadOnly then (false, b, [])
  else
    match b.ioReady s.id with
    | none => (false, b, [])
    | some inst =>
        if inst.objects.any (fun o => o.objId == eid) then
          (true,
           b.updateObjects s.id (fun objs => objs.filter (fun o => !(o.objId == eid))),
           [Event.updated s.id])
        else (false, b, [])

/-- `KeyStoreManager` (header lines 260-303): the process-wide registry of
currently known stores plus the append-only diagnostic log. -/
structure KeyStoreManager where
  registry : List KeyStore
  diagnosticLog : String
deriving DecidableEq, Repr

/-- `KeyStoreManager::keyStore(id)` (header lines 265-270): lookup in the
current registry; `none` models the null pointer returned when no live store
has that id. -/
def KeyStoreManager.keyStore (m : KeyStoreManager) (sid : String) :
    Option KeyStore :=
  m.registry.find? (fun s => s.id == sid)

/-- `KeyStoreManager::keyStores()` (header lines 272-275): the current
registry snapshot as an ordered sequence. -/
def KeyStoreManager.keyStores (m : KeyStoreManager) : List KeyStore :=
  m.registry

/-- `KeyStoreManager::count()` (header lines 277-280). -/
def KeyStoreManager.count (m : KeyStoreManager) : Nat :=
  m.registry.length

/-- `KeyStoreManager::diagnosticText()` (header lines 282-286). -/
def KeyStoreManager.diagnosticText (m : KeyStoreManager) : String :=
  m.diagnosticLog

/-- The Store object created by the manager for a discovered backend
instance (spec section 4.3). -/
def storeOfInstance (i : BackendInstance) : KeyStore :=
  { type := i.storeKind, name := i.storeName, id := i.storeId, readOnly := i.readOnly }

/-- The store ids reported present by the backend world's `discover()`. -/
def presentIds (b : BackendState) : List String :=
  b.instances.map fun i => i.storeId

/-- Registered stores whose backend instance is still present. -/
def scanSurvivors (m : KeyStoreManager) (b : BackendState) : List KeyStore :=
  m.registry.filter fun s => (presentIds b).contains s.id

/-- Registered stores whose backend instance has disappeared. -/
def scanRemoved (m : KeyStoreManager) (b : BackendState) : List KeyStore :=
  m.registry.filter fun s => !((presentIds b).contains s.id)

/-- Stores created for backend instances that have no registered store. -/
def scanNew (m : KeyStoreManager) (b : BackendState) : List KeyStore :=
  (b.instances.filter fun i =>
    !(m.registry.any fun s => s.id == i.storeId)).map storeOfInstance

/-- `KeyStoreManager::scan()` (header line 302). Modelled from the spec
section 4.3: one discovery pass — a previously registered store whose
backend instance is gone is removed and its `unavailable` event emitted; a
present instance with no registered store yields a new Store, inserted into
the registry before its `keyStoreAvailable` event is emitted; an
already-registered, still-present instance is a no-op. -/
def KeyStoreManager.scan (m : KeyStoreManager) (b : BackendState) :
    KeyStoreManager × List Event :=
  ({ m with registry := scanSurvivors m b ++ scanNew m b },
   (scanRemoved m b).map (fun s => Event.unavailable s.id)
     ++ (scanNew m b).map (fun s => Event.keyStoreAvailable s.id))

/-- The whole observable system: backend world, manager registry, and the
single stream of events as emitted/delivered to the application (spec
section 5: one logical event stream). -/
structure SysState where
  backend : BackendState
  mgr : KeyStoreManager
  trace : List Event
deriving DecidableEq, Repr

/-- One step of the system: a discovery pass, an environment change to the
backend world (cards inserted/removed, transient failures — no events until
the next scan), an application-driven store operation through the manager's
registry, or a backend passphrase prompt pushed for a registered store. -/
inductive Step
  | scanStep
  | backendSet (instances : List BackendInstance) (failing : List String)
  | writeKB (sid : String) (kb : KeyBundle)
  | writeCert (sid : String) (cert : Certificate)
  | writeCRL (sid : String) (cl : CRL)
  | writePGP (sid : String) (k : PGPKey)
  | removeE (sid : String) (eid : String)
  | pushNeedPassphrase (sid : String)
deriving DecidableEq, Repr

/-- Is this step a discovery cycle? -/
def Step.isScan : Step → Bool
  | .scanStep => true
  | _ => false

/-- Apply a store operation result to the system state. -/
def applyOp (σ : SysState) (r : BackendState × List Event) : SysState :=
  { σ with backend := r.1, trace := σ.trace ++ r.2 }

/-- The transition function of the modelled system. Store operations go
through `keyStore` (the application obtains stores from the manager). -/
def stepRun (σ : SysState) : Step → SysState
  | .scanStep =>
      let p := σ.mgr.scan σ.backend
      { σ with mgr := p.1, trace := σ.trace ++ p.2 }
  | .backendSet insts fails =>
      { σ with backend := { instances := insts, failing := fails } }
  | .writeKB sid kb =>
      match σ.mgr.keyStore sid with
      | none => σ
      | some s => applyOp σ (s.writeEntryKB σ.backend kb).2
  | .writeCert sid cert =>
      match σ.mgr.keyStore sid with
      | none => σ
      | some s => applyOp σ (s.writeEntryCert σ.backend cert).2
  | .writeCRL sid cl =>
      match σ.mgr.keyStore sid with
      | none => σ
      | some s => applyOp σ (s.writeEntryCRL σ.backend cl).2
  | .writePGP sid k =>
      match σ.mgr.keyStore sid with
      | none => σ
      | some s => applyOp σ (s.writeEntryPGP σ.backend k).2
  | .removeE sid eid =>
      match σ.mgr.keyStore sid with
      | none => σ
      | some s => applyOp σ (s.removeEntry σ.backend eid).2
  | .pushNeedPassphrase sid =>
      if σ.mgr.registry.any (fun s => s.id == sid) then
        { σ with trace := σ.trace ++ [Event.needPassphrase sid] }
      else σ

/-- The initial system: no backends, empty registry, empty trace. -/
def initSys : SysState :=
  { backend := { instances := [], failing := [] },
    mgr := { registry := [], diagnosticLog := "" },
    trace := [] }

/-- Run a list of steps from the initial system. -/
def runSteps (steps : List Step) : SysState :=
  steps.foldl stepRun initSys

/-- The store id an event belongs to, when the event is one of the store's
own three signals (`updated`, `unavailable`, `needPassphrase`). -/
def eventStoreId : Event → Option String
  | .updated i => some i
  | .unavailable i => some i
  | .needPassphrase i => some i
  | .keyStoreAvailable _ => none

/-- Fold the `keyStoreAvailable` ids of a trace into a seen-set. -/
def seenAfter (seen : List String) : List Event → List String
  | [] => seen
  | .keyStoreAvailable i :: rest => seenAfter (i :: seen) rest
  | .updated _ :: rest => seenAfter seen rest
  | .unavailable _ :: rest => seenAfter seen rest
  | .needPassphrase _ :: rest => seenAfter seen rest

/-- Delivery-order discipline of a trace: every one of a store's own events
is preceded (in the single delivery stream) by that store's
`keyStoreAvailable`, accumulated in `seen`. -/
def goodFrom (seen : List String) : List Event → Bool
  | [] => true
  | .keyStoreAvailable i :: rest => goodFrom (i :: seen) rest
  | .updated i :: rest => seen.contains i && goodFrom seen rest
  | .unavailable i :: rest => seen.contains i && goodFrom seen rest
  | .needPassphrase i :: rest => seen.contains i && goodFrom seen rest

/-- Invariant of the modelled system: the delivered event stream respects
the availability-first discipline (`goodFrom`), and every registered store's
`keyStoreAvailable` event is already in the trace. -/
def SysInv (σ : SysState) : Prop :=
  goodFrom [] σ.trace = true ∧
  ∀ s ∈ σ.mgr.registry, s.id ∈ seenAfter [] σ.trace

/-- Strip C block comments (non-nesting, as in C++) from a character list;
the boolean flag is "currently inside a comment". -/
def stripCComments : Bool → List Char → List Char
  | _, [] => []
  | false, '/' :: '*' :: rest => stripCComments true rest
  | false, c :: rest => c :: stripCComments false rest
  | true, '*' :: '/' :: rest => stripCComments false rest
  | true, _ :: rest => stripCComments true rest

/-- Does `pat` occur at the head of `l`? -/
def matchesAt : List Char → List Char → Bool
  | [], _ => true
  | _ :: _, [] => false
  | a :: as, b :: bs => a == b && matchesAt as bs

/-- Does `pat` occur as a contiguous run anywhere in `l`? -/
def hasSub (pat : List Char) : List Char → Bool
  | [] => pat.isEmpty
  | c :: rest => matchesAt pat (c :: rest) || hasSub pat rest

/-- Verbatim text of qca_keystore.h lines 90-99 (whitespace normalised to
spaces): the doc comment opened before `keyBundle()` is never closed before
the declaration, so the declaration sits inside the comment, which only ends
at the `*/` preceding `certificate()`. -/
def keyBundleRegion : String :=
  "/**\n   If a KeyBundle is stored in this object, return that\n   bundle.\nKeyBundle keyBundle() const;\n\n/**\n   If a Certificate is stored in this object, return that\n   certificate.\n*/\nCertificate certificate() const;\n"

/-- A concrete read-only system trust store, used by witnesses. -/
def exSysStore : KeyStore :=
  { type := .System, name := "System Trust", id := "system:0", readOnly := true }

/-- A concrete writable application store, used by witnesses. -/
def exAppStore : KeyStore :=
  { type := .Application, name := "App Cache", id := "app:0", readOnly := false }

/-- A concrete writable PGP keyring store, used by witnesses. -/
def exPGPStore : KeyStore :=
  { type := .PGPKeyring, name := "GnuPG", id := "gpg:0", readOnly := false }

/-- Concrete backend instances matching the example stores. -/
def exInstances : List BackendInstance :=
  [{ storeId := "system:0", storeKind := .System, storeName := "System Trust",
     readOnly := true, locked := false,
     objects := [{ objId := "cert:1", objName := "root", payload := .certificate 1 }] },
   { storeId := "app:0", storeKind := .Application, storeName := "App Cache",
     readOnly := false, locked := false, objects := [] },
   { storeId := "gpg:0", storeKind := .PGPKeyring, storeName := "GnuPG",
     readOnly := false, locked := false,
     objects := [{ objId := "pgp:5", objName := "alice", payload := .pgpPublicKey ⟨5, 1⟩ }] }]

/-- A concrete backend world, used by witnesses. -/
def exBackend : BackendState := { instances := exInstances, failing := [] }

/-- A concrete manager registering a smart-card store whose backend instance
is not present in `exBackend`, used by witnesses. -/
def exMgr : KeyStoreManager :=
  { registry := [{ type := .SmartCard, name := "Card", id := "card:0",
                   readOnly := false }],
    diagnosticLog := "" }

/-- The empty manager, used by witnesses. -/
def exMgr0 : KeyStoreManager := { registry := [], diagnosticLog := "" }

end QCAKeyStore

namespace QCAKeyStore

/-- The object written by `upsertObj` is a member of the result. -/
theorem mem_upsertObj (obj : RawObject) (l : List RawObject) :
    obj ∈ upsertObj obj l := by
  induction l with
  | nil => simp [upsertObj]
  | cons o os ih =>
      by_cases hh : o.objId == obj.objId <;> simp [upsertObj, hh, ih]

/-- Looking up the written id after `upsertObj` finds the written object. -/
theorem find?_upsertObj (obj : RawObject) (l : List RawObject) :
    (upsertObj obj l).find? (fun o => o.objId == obj.objId) = some obj := by
  induction l with
  | nil => simp [upsertObj]
  | cons o os ih =>
      by_cases hh : o.objId == obj.objId <;>
        simp [upsertObj, hh, List.find?_cons, ih]

/-- `updateObjects` rewrites the looked-up instance's object list and
nothing else about it. -/
theorem find?_map_update (l : List BackendInstance) (sid : String)
    (f : List RawObject → List RawObject) :
    (l.map fun i =>
        if i.storeId == sid then { i with objects := f i.objects } else i).find?
      (fun i => i.storeId == sid)
      = (l.find? fun i => i.storeId == sid).map
          (fun i => { i with objects := f i.objects }) := by
  induction l with
  | nil => rfl
  | cons hd tl ih =>
      simp only [List.map_cons]
      by_cases hh : (hd.storeId == sid) = true
      · have hg : (if (hd.storeId == sid) = true
              then ({ hd with objects := f hd.objects } : BackendInstance)
              else hd) = { hd with objects := f hd.objects } := if_pos hh
        have hh2 : (({ hd with objects := f hd.objects } : BackendInstance).storeId == sid)
            = true := hh
        rw [hg, List.find?_cons, List.find?_cons]
        simp only [hh, hh2]
        rfl
      · have hg : (if (hd.storeId == sid) = true
              then ({ hd with objects := f hd.objects } : BackendInstance)
              else hd) = hd := if_neg hh
        have hh2 : (hd.storeId == sid) = false := by
          cases hv : hd.storeId == sid
          · rfl
          · exact absurd hv hh
        rw [hg, List.find?_cons, List.find?_cons]
        simp only [hh2]
        exact ih

theorem findInstance_updateObjects (b : BackendState) (sid : String)
    (f : List RawObject → List RawObject) :
    (b.updateObjects sid f).findInstance sid
      = (b.findInstance sid).map (fun i => { i with objects := f i.objects }) := by
  simpa [BackendState.findInstance, BackendState.updateObjects] using
    find?_map_update b.instances sid f

theorem failing_updateObjects (b : BackendState) (sid : String)
    (f : List RawObject → List RawObject) :
    (b.updateObjects sid f).failing = b.failing := rfl

/-- `ioReady` after an object update: same availability, updated objects. -/
theorem ioReady_updateObjects (b : BackendState) (sid : String)
    (f : List RawObject → List RawObject) :
    (b.updateObjects sid f).ioReady sid
      = (b.ioReady sid).map (fun i => { i with objects := f i.objects }) := by
  unfold BackendState.ioReady
  rw [failing_updateObjects, findInstance_updateObjects]
  cases hf : b.findInstance sid with
  | none => rfl
  | some i =>
      have hloc : ({ i with objects := f i.objects } : BackendInstance).locked
          = i.locked := rfl
      cases hor : b.failing.contains sid || i.locked
      · have hboth := Bool.or_eq_false_iff.mp hor
        have h1 : ¬ sid ∈ b.failing := by simpa using hboth.1
        simp [Option.some_bind, hloc, h1, hboth.2]
      · cases hco : b.failing.contains sid
        · have hl : i.locked = true := by
            cases hlv : i.locked
            · rw [hco, hlv] at hor
              exact absurd hor (by simp)
            · rfl
          simp [Option.some_bind, hloc, hl]
        · have h1 : sid ∈ b.failing := by simpa using hco
          simp [Option.some_bind, hloc, h1]

/-- Unfolding a successful `ioReady`. -/
theorem ioReady_some (b : BackendState) (sid : String) (inst : BackendInstance)
    (h : b.ioReady sid = some inst) :
    b.findInstance sid = some inst ∧ b.failing.contains sid = false ∧
      inst.locked = false := by
  unfold BackendState.ioReady at h
  cases hf : b.findInstance sid with
  | none => rw [hf] at h; exact absurd h (by simp)
  | some i =>
      rw [hf] at h
      rw [Option.some_bind] at h
      cases hor : b.failing.contains sid || i.locked
      · rw [hor] at h
        simp only [Bool.false_eq_true, if_false, Option.some.injEq] at h
        subst h
        have hboth := Bool.or_eq_false_iff.mp hor
        exact ⟨rfl, hboth.1, hboth.2⟩
      · rw [hor] at h
        simp at h

/-- Characterisation of a successful certificate write. -/
theorem writeEntryCert_success (s : KeyStore) (b : BackendState)
    (cert : Certificate) (hw : (s.writeEntryCert b cert).1 = true) :
    ∃ d inst, cert.data = some d ∧ s.isReadOnly = false ∧
      s.holdsTrustedCertificates = true ∧ b.ioReady s.id = some inst ∧
      s.writeEntryCert b cert
        = (true,
           b.updateObjects s.id (upsertObj (certRawObject cert d)),
           [Event.updated s.id]) := by
  rcases cert with ⟨_ | d⟩
  · simp [KeyStore.writeEntryCert] at hw
  · unfold KeyStore.writeEntryCert KeyStore.writeRaw at hw ⊢
    simp only at hw ⊢
    by_cases hro : s.isReadOnly
    · simp [hro] at hw
    · by_cases hcomp : s.holdsTrustedCertificates
      · cases hio : b.ioReady s.id with
        | none => simp [hro, hcomp, hio] at hw
        | some inst =>
            refine ⟨d, inst, rfl, by simpa using hro, by simpa using hcomp, rfl, ?_⟩
            simp [hro, hcomp]
      · simp [hro, hcomp] at hw

/-- `entryList` after an object update of a ready store maps the updated
object list. -/
theorem entryList_updateObjects (s : KeyStore) (b : BackendState)
    (inst : BackendInstance) (f : List RawObject → List RawObject)
    (h : b.ioReady s.id = some inst) :
    s.entryList (b.updateObjects s.id f) = (f inst.objects).map rawToEntry := by
  unfold KeyStore.entryList BackendState.enumerate
  rw [ioReady_updateObjects, h]
  rfl

/-- `mergeSigs` keeps the stable key id of the imported key. -/
theorem mergeSigs_keyId (objs : List RawObject) (oid : String) (m : PGPMaterial) :
    (mergeSigs objs oid m).keyId = m.keyId := by
  unfold mergeSigs
  cases objs.find? (fun o => o.objId == oid) with
  | none => rfl
  | some o =>
      rcases o with ⟨oi, onm, (d | d | d | mm | mm)⟩ <;> rfl

/-- Claim C5: on a writable store, after a successful certificate write the
entry list contains a certificate-typed entry with the id assigned to the
written certificate; removing that id afterwards succeeds and the entry
list then contains no entry with that id. -/
theorem C5_certificate_round_trip (s : KeyStore) (b : BackendState)
    (cert : Certificate) (hw : (s.writeEntryCert b cert).1 = true) :
    (∃ e ∈ s.entryList (s.writeEntryCert b cert).2.1,
        e.type = EntryType.TypeCertificate ∧ e.id = certEntryId cert) ∧
    (s.removeEntry (s.writeEntryCert b cert).2.1 (certEntryId cert)).1 = true ∧
    (∀ e ∈ s.entryList
        (s.removeEntry (s.writeEntryCert b cert).2.1 (certEntryId cert)).2.1,
        e.id ≠ certEntryId cert) := by
  obtain ⟨d, inst, hd, hro, hcomp, hio, heq⟩ := writeEntryCert_success s b cert hw
  rw [heq]
  dsimp only
  have hio1 : (b.updateObjects s.id (upsertObj (certRawObject cert d))).ioReady s.id
      = some { inst with objects := upsertObj (certRawObject cert d) inst.objects } := by
    rw [ioReady_updateObjects, hio]
    rfl
  have hlist1 : s.entryList (b.updateObjects s.id (upsertObj (certRawObject cert d)))
      = (upsertObj (certRawObject cert d) inst.objects).map rawToEntry :=
    entryList_updateObjects s b inst _ hio
  refine ⟨?_, ?_⟩
  · rw [hlist1]
    exact ⟨rawToEntry (certRawObject cert d),
      List.mem_map_of_mem rawToEntry (mem_upsertObj _ _), rfl, rfl⟩
  · have hany : (upsertObj (certRawObject cert d) inst.objects).any
        (fun o => o.objId == certEntryId cert) = true :=
      List.any_eq_true.mpr ⟨certRawObject cert d, mem_upsertObj _ _, by simp [certRawObject]⟩
    have hrem : s.removeEntry (b.updateObjects s.id (upsertObj (certRawObject cert d)))
        (certEntryId cert)
        = (true,
           (b.updateObjects s.id (upsertObj (certRawObject cert d))).updateObjects s.id
             (fun objs => objs.filter fun o => !(o.objId == certEntryId cert)),
           [Event.updated s.id]) := by
      unfold KeyStore.removeEntry
      simp [hro, hio1, hany]
    rw [hrem]
    dsimp only
    refine ⟨rfl, ?_⟩
    intro e he
    rw [entryList_updateObjects s _ _ _ hio1] at he
    obtain ⟨o, ho, rfl⟩ := List.mem_map.mp he
    have hprop := (List.mem_filter.mp ho).2
    intro hcontra
    have hid : o.objId = certEntryId cert := hcontra
    rw [hid] at hprop
    simp at hprop

/-- Claim C5 witness: the round trip carried out on a concrete writable
application store against the concrete example backend. -/
theorem C5_certificate_round_trip_witness :
    (exAppStore.writeEntryCert exBackend { data := some 42 }).1 = true ∧
    (∃ e ∈ exAppStore.entryList (exAppStore.writeEntryCert exBackend { data := some 42 }).2.1,
        e.type = EntryType.TypeCertificate ∧ e.id = certEntryId { data := some 42 }) :=
  ⟨by decide,
   (C5_certificate_round_trip exAppStore exBackend { data := some 42 } (by decide)).1⟩

/-- Characterisation of a successful PGP import. -/
theorem writeEntryPGP_success (s : KeyStore) (b : BackendState) (k : PGPKey)
    (m : PGPMaterial) (inst : BackendInstance) (hm : k.material = some m)
    (hro : s.isReadOnly = false)
    (hk : (s.type == KeyStoreType.PGPKeyring) = true)
    (hio : b.ioReady s.id = some inst) :
    s.writeEntryPGP b k
      = ({ material := some (mergeSigs inst.objects (pgpEntryId m) m),
           isSecret := k.isSecret },
         b.updateObjects s.id (upsertObj (pgpRawObject k m inst)),
         [Event.updated s.id]) := by
  unfold KeyStore.writeEntryPGP
  simp [hro, hm, hk, hio]

/-- Claim C10: the PGP overload of `writeEntry` signals failure through a
null `PGPKey`, never through `false`: on a read-only store it returns the
null key and performs no backend I/O, and whenever it returns a non-null
key, that key is exactly the canonical (possibly merged) key now stored in
the keyring under the written key's id. -/
theorem C10_pgp_write_returns_stored_key (s : KeyStore) (b : BackendState)
    (k : PGPKey) :
    (s.isReadOnly = true →
      s.writeEntryPGP b k = (nullPGPKey, b, []) ∧
      (s.writeEntryPGP b k).1.isNull = true) ∧
    ((s.writeEntryPGP b k).1.isNull = false →
      ∃ m inst, k.material = some m ∧
        (s.writeEntryPGP b k).1
          = { material := some (mergeSigs inst.objects (pgpEntryId m) m),
              isSecret := k.isSecret } ∧
        (mergeSigs inst.objects (pgpEntryId m) m).keyId = m.keyId ∧
        b.ioReady s.id = some inst ∧
        ((s.writeEntryPGP b k).2.1.findInstance s.id).map
            (fun i => i.objects.find? fun o => o.objId == pgpEntryId m)
          = some (some (pgpRawObject k m inst))) := by
  constructor
  · intro h
    constructor
    · simp [KeyStore.writeEntryPGP, h]
    · simp [KeyStore.writeEntryPGP, h, nullPGPKey, PGPKey.isNull]
  · intro h
    by_cases hro : s.isReadOnly = true
    · simp [KeyStore.writeEntryPGP, hro, nullPGPKey, PGPKey.isNull] at h
    · have hro2 : s.isReadOnly = false := by
        cases hv : s.isReadOnly
        · rfl
        · exact absurd hv hro
      cases hm : k.material with
      | none => simp [KeyStore.writeEntryPGP, hro2, hm, nullPGPKey, PGPKey.isNull] at h
      | some m =>
          cases hk : s.type == KeyStoreType.PGPKeyring
          · simp [KeyStore.writeEntryPGP, hro2, hm, hk, nullPGPKey, PGPKey.isNull] at h
          · cases hio : b.ioReady s.id with
            | none =>
                simp [KeyStore.writeEntryPGP, hro2, hm, hk, hio, nullPGPKey,
                  PGPKey.isNull] at h
            | some inst =>
                have heq := writeEntryPGP_success s b k m inst hm hro2 hk hio
                rw [heq]
                dsimp only
                refine ⟨m, inst, rfl, rfl, mergeSigs_keyId _ _ _, rfl, ?_⟩
                rw [findInstance_updateObjects, (ioReady_some b s.id inst hio).1]
                exact congrArg some (find?_upsertObj (pgpRawObject k m inst) inst.objects)

/-- Claim C10 witness: a concrete PGP import on the example keyring merges
with the public key already stored under the same key id. -/
theorem C10_pgp_write_returns_stored_key_witness :
    (exPGPStore.writeEntryPGP exBackend
        { material := some ⟨5, 2⟩, isSecret := false }).1.isNull = false ∧
    (∃ m inst,
        ({ material := some ⟨5, 2⟩, isSecret := false } : PGPKey).material = some m ∧
        (exPGPStore.writeEntryPGP exBackend
            { material := some ⟨5, 2⟩, isSecret := false }).1
          = { material := some (mergeSigs inst.objects (pgpEntryId m) m),
              isSecret := ({ material := some ⟨5, 2⟩, isSecret := false } : PGPKey).isSecret } ∧
        (mergeSigs inst.objects (pgpEntryId m) m).keyId = m.keyId ∧
        exBackend.ioReady exPGPStore.id = some inst ∧
        ((exPGPStore.writeEntryPGP exBackend
              { material := some ⟨5, 2⟩, isSecret := false }).2.1.findInstance exPGPStore.id).map
            (fun i => i.objects.find? fun o => o.objId == pgpEntryId m)
          = some (some (pgpRawObject { material := some ⟨5, 2⟩, isSecret := false } m inst))) :=
  ⟨by decide,
   (C10_pgp_write_returns_stored_key exPGPStore exBackend
      { material := some ⟨5, 2⟩, isSecret := false }).2 (by decide)⟩

theorem scan_registry (m : KeyStoreManager) (b : BackendState) :
    (m.scan b).1.registry = scanSurvivors m b ++ scanNew m b := rfl

theorem scan_events (m : KeyStoreManager) (b : BackendState) :
    (m.scan b).2
      = (scanRemoved m b).map (fun s => Event.unavailable s.id)
        ++ (scanNew m b).map (fun s => Event.keyStoreAvailable s.id) := rfl

/-- Every store in a post-scan registry has a present backend instance. -/
theorem mem_scan_registry_present (m : KeyStoreManager) (b : BackendState)
    (s2 : KeyStore) (h : s2 ∈ (m.scan b).1.registry) :
    s2.id ∈ presentIds b := by
  rw [scan_registry] at h
  rcases List.mem_append.mp h with h | h
  · have hc := (List.mem_filter.mp h).2
    simpa using hc
  · unfold scanNew at h
    obtain ⟨i, hi, hstore⟩ := List.mem_map.mp h
    have hins := (List.mem_filter.mp hi).1
    rw [← hstore]
    exact List.mem_map_of_mem (fun j => j.storeId) hins

/-- Claim C2: after a discovery pass, every store reachable through
`keyStores()` or `keyStore(id)` is currently available (its backend
instance is present); a store whose `unavailable` event was emitted by the
pass is no longer in the registry, so `keyStore(id)` returns null for it;
and no step other than a discovery cycle ever changes the registry, so the
lookup stays null until a later scan assigns the id again. -/
theorem C2_registry_tracks_availability :
    (∀ (m : KeyStoreManager) (b : BackendState) (s2 : KeyStore),
        s2 ∈ (m.scan b).1.keyStores → s2.id ∈ presentIds b) ∧
    (∀ (m : KeyStoreManager) (b : BackendState) (i : String) (s2 : KeyStore),
        (m.scan b).1.keyStore i = some s2 → i ∈ presentIds b) ∧
    (∀ (m : KeyStoreManager) (b : BackendState) (i : String),
        Event.unavailable i ∈ (m.scan b).2 → (m.scan b).1.keyStore i = none) ∧
    (∀ (σ : SysState) (st : Step), st.isScan = false →
        (stepRun σ st).mgr = σ.mgr) := by
  refine ⟨?_, ?_, ?_, ?_⟩
  · intro m b s2 h
    exact mem_scan_registry_present m b s2 h
  · intro m b i s2 h
    have h2 : (m.scan b).1.registry.find? (fun s => s.id == i) = some s2 := h
    have hmem : s2 ∈ (m.scan b).1.registry := List.mem_of_find?_eq_some h2
    have hbeq := List.find?_some h2
    have hid : s2.id = i := eq_of_beq hbeq
    rw [← hid]
    exact mem_scan_registry_present m b s2 hmem
  · intro m b i hev
    rw [scan_events] at hev
    rcases List.mem_append.mp hev with hev | hev
    · obtain ⟨s2, hs2, heq⟩ := List.mem_map.mp hev
      have hid : s2.id = i := by injection heq
      unfold KeyStoreManager.keyStore
      apply List.find?_eq_none.mpr
      intro x hx hxi
      have hxid : x.id = i := eq_of_beq hxi
      have hxp := mem_scan_registry_present m b x hx
      have hs2r := (List.mem_filter.mp hs2).2
      rw [hid] at hs2r
      rw [hxid] at hxp
      have : (presentIds b).contains i = true := by simpa using hxp
      rw [this] at hs2r
      exact absurd hs2r (by simp)
    · obtain ⟨s2, hs2, heq⟩ := List.mem_map.mp hev
      exact Event.noConfusion heq
  · intro σ st hst
    cases st with
    | scanStep => simp [Step.isScan] at hst
    | backendSet insts fails => rfl
    | writeKB sid kb =>
        simp only [stepRun]
        cases σ.mgr.keyStore sid <;> rfl
    | writeCert sid cert =>
        simp only [stepRun]
        cases σ.mgr.keyStore sid <;> rfl
    | writeCRL sid cl =>
        simp only [stepRun]
        cases σ.mgr.keyStore sid <;> rfl
    | writePGP sid k =>
        simp only [stepRun]
        cases σ.mgr.keyStore sid <;> rfl
    | removeE sid eid =>
        simp only [stepRun]
        cases σ.mgr.keyStore sid <;> rfl
    | pushNeedPassphrase sid =>
        simp only [stepRun]
        split <;> rfl

/-- Claim C2 witness: scanning the example backend removes the registered
smart-card store whose instance is gone, emits its `unavailable` event, and
`keyStore` then returns null for its id. -/
theorem C2_registry_tracks_availability_witness :
    Event.unavailable "card:0" ∈ (exMgr.scan exBackend).2 ∧
    (exMgr.scan exBackend).1.keyStore "card:0" = none :=
  ⟨by decide,
   C2_registry_tracks_availability.2.2.1 exMgr exBackend "card:0" (by decide)⟩

/-- A scan against a backend it is already synchronised with is the
identity and emits nothing. -/
theorem scan_of_synced (m2 : KeyStoreManager) (b : BackendState)
    (hsurv : scanSurvivors m2 b = m2.registry)
    (hrem : scanRemoved m2 b = [])
    (hnew : scanNew m2 b = []) :
    m2.scan b = (m2, ([] : List Event)) := by
  unfold KeyStoreManager.scan
  rw [hsurv, hrem, hnew]
  simp

/-- Claim C6: a second `scan()` against an unchanged backend world emits no
`keyStoreAvailable` or `unavailable` events and leaves `keyStores()`
unchanged, ids and order included; and within any scan, an
already-registered instance produces no `keyStoreAvailable` event. -/
theorem C6_scan_idempotent :
    (∀ (m : KeyStoreManager) (b : BackendState),
        (m.scan b).1.scan b = ((m.scan b).1, ([] : List Event))) ∧
    (∀ (m : KeyStoreManager) (b : BackendState) (i : String),
        m.registry.any (fun s => s.id == i) = true →
        Event.keyStoreAvailable i ∉ (m.scan b).2) := by
  constructor
  · intro m b
    have hall : ∀ s2 ∈ (m.scan b).1.registry,
        ((presentIds b).contains s2.id) = true := by
      intro s2 hs2
      have := mem_scan_registry_present m b s2 hs2
      simpa using this
    have hsurv : scanSurvivors (m.scan b).1 b = (m.scan b).1.registry :=
      List.filter_eq_self.mpr hall
    have hrem : scanRemoved (m.scan b).1 b = [] := by
      apply List.filter_eq_nil_iff.mpr
      intro s2 hs2
      have hmem := mem_scan_registry_present m b s2 hs2
      simp [hmem]
    have hnew : scanNew (m.scan b).1 b = [] := by
      unfold scanNew
      rw [List.map_eq_nil_iff]
      apply List.filter_eq_nil_iff.mpr
      intro i hi
      have hany : (m.scan b).1.registry.any (fun s => s.id == i.storeId) = true := by
        cases hreg : m.registry.any (fun s => s.id == i.storeId) with
        | true =>
            obtain ⟨s2, hs2, hbeq⟩ := List.any_eq_true.mp hreg
            apply List.any_eq_true.mpr
            refine ⟨s2, ?_, hbeq⟩
            rw [scan_registry]
            apply List.mem_append.mpr
            left
            apply List.mem_filter.mpr
            refine ⟨hs2, ?_⟩
            have hids : s2.id = i.storeId := eq_of_beq hbeq
            have : i.storeId ∈ presentIds b :=
              List.mem_map_of_mem (fun j => j.storeId) hi
            rw [hids]
            simpa using this
        | false =>
            apply List.any_eq_true.mpr
            refine ⟨storeOfInstance i, ?_, ?_⟩
            · rw [scan_registry]
              apply List.mem_append.mpr
              right
              unfold scanNew
              apply List.mem_map_of_mem storeOfInstance
              apply List.mem_filter.mpr
              exact ⟨hi, by simp [hreg]⟩
            · simp [storeOfInstance]
      simp [hany]
    exact scan_of_synced (m.scan b).1 b hsurv hrem hnew
  · intro m b i hany hev
    rw [scan_events] at hev
    rcases List.mem_append.mp hev with hev | hev
    · obtain ⟨s2, hs2, heq⟩ := List.mem_map.mp hev
      exact Event.noConfusion heq
    · obtain ⟨s2, hs2, heq⟩ := List.mem_map.mp hev
      have hid : s2.id = i := by injection heq
      unfold scanNew at hs2
      obtain ⟨inst, hinst, hstore⟩ := List.mem_map.mp hs2
      have hfil := (List.mem_filter.mp hinst).2
      have hii : inst.storeId = i := by
        rw [← hid, ← hstore]
        rfl
      rw [hii, hany] at hfil
      exact absurd hfil (by simp)

/-- Claim C6 witness: a concrete double scan is a no-op, and the example
manager's already-registered id produces no availability event. -/
theorem C6_scan_idempotent_witness :
    ((exMgr0.scan exBackend).1.scan exBackend
      = ((exMgr0.scan exBackend).1, ([] : List Event))) ∧
    exMgr.registry.any (fun s => s.id == "card:0") = true ∧
    Event.keyStoreAvailable "card:0" ∉ (exMgr.scan exBackend).2 :=
  ⟨C6_scan_idempotent.1 exMgr0 exBackend, by decide,
   C6_scan_idempotent.2 exMgr exBackend "card:0" (by decide)⟩

/-- Claim C3: a kind-specific accessor called on an entry whose type does
not match returns a null/empty value of its return type; on a
certificate-typed entry, `certificate()` is non-null while both PGP
accessors are null; `pgpPublicKey()` is additionally valid (non-null) on a
PGP-secret-key-typed entry. -/
theorem C3_accessor_type_discipline :
    (∀ e : KeyStoreEntry, e.type = EntryType.TypeCertificate →
        e.certificate.isNull = false ∧ e.pgpSecretKey.isNull = true ∧
        e.pgpPublicKey.isNull = true) ∧
    (∀ e : KeyStoreEntry, e.type ≠ EntryType.TypeCertificate →
        e.certificate.isNull = true) ∧
    (∀ e : KeyStoreEntry, e.type ≠ EntryType.TypeCRL → e.crl.isNull = true) ∧
    (∀ e : KeyStoreEntry, e.type ≠ EntryType.TypePGPSecretKey →
        e.pgpSecretKey.isNull = true) ∧
    (∀ e : KeyStoreEntry, e.type ≠ EntryType.TypePGPSecretKey →
        e.type ≠ EntryType.TypePGPPublicKey → e.pgpPublicKey.isNull = true) ∧
    (∀ e : KeyStoreEntry, e.type = EntryType.TypePGPSecretKey →
        e.pgpPublicKey.isNull = false) := by
  refine ⟨?_, ?_, ?_, ?_, ?_, ?_⟩ <;>
    rintro (_ | ⟨n, i, (d | d | d | m | m)⟩) <;>
      simp [KeyStoreEntry.type, EntryPayload.entryType, KeyStoreEntry.certificate,
        KeyStoreEntry.crl, KeyStoreEntry.pgpSecretKey, KeyStoreEntry.pgpPublicKey,
        Certificate.isNull, CRL.isNull, PGPKey.isNull, nullPGPKey]

/-- Claim C3 witness: the theorem applied to a concrete certificate entry. -/
theorem C3_accessor_type_discipline_witness :
    (KeyStoreEntry.entry "n" "i" (.certificate 7)).type = EntryType.TypeCertificate ∧
    ((KeyStoreEntry.entry "n" "i" (.certificate 7)).certificate.isNull = false ∧
     (KeyStoreEntry.entry "n" "i" (.certificate 7)).pgpSecretKey.isNull = true ∧
     (KeyStoreEntry.entry "n" "i" (.certificate 7)).pgpPublicKey.isNull = true) :=
  ⟨by decide, C3_accessor_type_discipline.1 (KeyStoreEntry.entry "n" "i" (.certificate 7)) (by decide)⟩

/-- Claim C7: on a PGP-secret-key-typed entry, `pgpPublicKey()` returns the
public-key derivation of the same key material as `pgpSecretKey()`. -/
theorem C7_pgpPublicKey_derives_secret (e : KeyStoreEntry)
    (h : e.type = EntryType.TypePGPSecretKey) :
    e.pgpPublicKey = e.pgpSecretKey.publicPart ∧
    e.pgpPublicKey.material = e.pgpSecretKey.material ∧
    e.pgpPublicKey.isSecret = false := by
  rcases e with _ | ⟨n, i, (d | d | d | m | m)⟩ <;>
    simp_all [KeyStoreEntry.type, EntryPayload.entryType, KeyStoreEntry.pgpSecretKey,
      KeyStoreEntry.pgpPublicKey, PGPKey.publicPart, nullPGPKey]

/-- Claim C7 witness: the theorem applied to a concrete secret-key entry. -/
theorem C7_pgpPublicKey_derives_secret_witness :
    (KeyStoreEntry.entry "k" "i" (.pgpSecretKey ⟨9, 2⟩)).type = EntryType.TypePGPSecretKey ∧
    (KeyStoreEntry.entry "k" "i" (.pgpSecretKey ⟨9, 2⟩)).pgpPublicKey
      = (KeyStoreEntry.entry "k" "i" (.pgpSecretKey ⟨9, 2⟩)).pgpSecretKey.publicPart :=
  ⟨by decide,
   (C7_pgpPublicKey_derives_secret (KeyStoreEntry.entry "k" "i" (.pgpSecretKey ⟨9, 2⟩)) (by decide)).1⟩

/-- Claim C1: on a read-only store every write overload and `removeEntry`
fails — the boolean overloads return `false`, the PGP overload returns the
null key — the backend is untouched (no I/O was performed, no event
emitted), and `entryList()` is unchanged by the attempt. -/
theorem C1_readOnly_rejects_mutation (s : KeyStore) (b : BackendState)
    (kb : KeyBundle) (cert : Certificate) (cl : CRL) (k : PGPKey) (eid : String)
    (h : s.isReadOnly = true) :
    s.writeEntryKB b kb = (false, b, []) ∧
    s.writeEntryCert b cert = (false, b, []) ∧
    s.writeEntryCRL b cl = (false, b, []) ∧
    s.writeEntryPGP b k = (nullPGPKey, b, []) ∧
    s.removeEntry b eid = (false, b, []) ∧
    s.entryList (s.writeEntryKB b kb).2.1 = s.entryList b ∧
    s.entryList (s.writeEntryCert b cert).2.1 = s.entryList b ∧
    s.entryList (s.writeEntryCRL b cl).2.1 = s.entryList b ∧
    s.entryList (s.writeEntryPGP b k).2.1 = s.entryList b ∧
    s.entryList (s.removeEntry b eid).2.1 = s.entryList b := by
  have hkb : s.writeEntryKB b kb = (false, b, []) := by
    rcases kb with ⟨_ | d⟩ <;>
      simp [KeyStore.writeEntryKB, KeyStore.writeRaw, h]
  have hcert : s.writeEntryCert b cert = (false, b, []) := by
    rcases cert with ⟨_ | d⟩ <;>
      simp [KeyStore.writeEntryCert, KeyStore.writeRaw, h]
  have hcrl : s.writeEntryCRL b cl = (false, b, []) := by
    rcases cl with ⟨_ | d⟩ <;>
      simp [KeyStore.writeEntryCRL, KeyStore.writeRaw, h]
  have hpgp : s.writeEntryPGP b k = (nullPGPKey, b, []) := by
    simp [KeyStore.writeEntryPGP, h]
  have hrem : s.removeEntry b eid = (false, b, []) := by
    simp [KeyStore.removeEntry, h]
  exact ⟨hkb, hcert, hcrl, hpgp, hrem,
    by rw [hkb], by rw [hcert], by rw [hcrl], by rw [hpgp], by rw [hrem]⟩

/-- Claim C1 witness: the read-only system trust store rejects a concrete
certificate write and leaves the backend untouched. -/
theorem C1_readOnly_rejects_mutation_witness :
    exSysStore.isReadOnly = true ∧
    exSysStore.writeEntryCert exBackend { data := some 9 } = (false, exBackend, []) :=
  ⟨by decide,
   (C1_readOnly_rejects_mutation exSysStore exBackend { data := some 3 }
      { data := some 9 } { data := some 4 } { material := some ⟨8, 0⟩, isSecret := true }
      "cert:1" (by decide)).2.1⟩

/-- Claim C4: `entryList()` is a total function (transient I/O errors can
never escape as exceptions), and on backend I/O failure or when the store's
backend instance has disappeared since creation it returns the empty
sequence. -/
theorem C4_entryList_soft_failure (s : KeyStore) (b : BackendState)
    (h : b.failing.contains s.id = true ∨ b.findInstance s.id = none) :
    s.entryList b = [] := by
  rcases h with h | h
  · have h' : s.id ∈ b.failing := by simpa using h
    simp [KeyStore.entryList, BackendState.enumerate, BackendState.ioReady, h']
  · simp [KeyStore.entryList, BackendState.enumerate, BackendState.ioReady, h]

/-- Claim C4 witness: a store whose backend instance is gone returns the
empty sequence. -/
theorem C4_entryList_soft_failure_witness :
    ((exBackend.failing.contains "gone:0" = true) ∨
      (exBackend.findInstance "gone:0" = none)) ∧
    ({ type := .SmartCard, name := "Card", id := "gone:0",
       readOnly := false : KeyStore }).entryList exBackend = [] :=
  ⟨Or.inr (by decide),
   C4_entryList_soft_failure
     { type := .SmartCard, name := "Card", id := "gone:0", readOnly := false }
     exBackend (Or.inr (by decide))⟩

theorem seenAfter_append (seen : List String) (t u : List Event) :
    seenAfter seen (t ++ u) = seenAfter (seenAfter seen t) u := by
  induction t generalizing seen with
  | nil => rfl
  | cons e rest ih => cases e <;> simp [seenAfter, ih]

theorem mem_seenAfter (x : String) (seen : List String) (t : List Event)
    (h : x ∈ seen) : x ∈ seenAfter seen t := by
  induction t generalizing seen with
  | nil => exact h
  | cons e rest ih =>
      cases e with
      | keyStoreAvailable i =>
          simp only [seenAfter]
          exact ih (i :: seen) (List.mem_cons_of_mem i h)
      | updated i =>
          simp only [seenAfter]
          exact ih seen h
      | unavailable i =>
          simp only [seenAfter]
          exact ih seen h
      | needPassphrase i =>
          simp only [seenAfter]
          exact ih seen h

theorem goodFrom_append (seen : List String) (t u : List Event) :
    goodFrom seen (t ++ u)
      = (goodFrom seen t && goodFrom (seenAfter seen t) u) := by
  induction t generalizing seen with
  | nil => simp [goodFrom, seenAfter]
  | cons e rest ih =>
      cases e <;> simp [goodFrom, seenAfter, ih, Bool.and_assoc]

/-- A run of events that all belong to stores already seen keeps the
delivery discipline. -/
theorem goodFrom_storeEvents (seen : List String) (evs : List Event)
    (h : ∀ e ∈ evs, ∃ i, eventStoreId e = some i ∧ i ∈ seen) :
    goodFrom seen evs = true := by
  induction evs with
  | nil => rfl
  | cons e rest ih =>
      obtain ⟨i, hei, his⟩ := h e (List.mem_cons_self e rest)
      have hrest : ∀ e2 ∈ rest, ∃ i2, eventStoreId e2 = some i2 ∧ i2 ∈ seen :=
        fun e2 hx => h e2 (List.mem_cons_of_mem _ hx)
      cases e with
      | keyStoreAvailable j => simp [eventStoreId] at hei
      | updated j =>
          have hji : j = i := by simpa [eventStoreId] using hei
          subst hji
          simp only [goodFrom, Bool.and_eq_true]
          exact ⟨by simpa using his, ih hrest⟩
      | unavailable j =>
          have hji : j = i := by simpa [eventStoreId] using hei
          subst hji
          simp only [goodFrom, Bool.and_eq_true]
          exact ⟨by simpa using his, ih hrest⟩
      | needPassphrase j =>
          have hji : j = i := by simpa [eventStoreId] using hei
          subst hji
          simp only [goodFrom, Bool.and_eq_true]
          exact ⟨by simpa using his, ih hrest⟩

/-- Events that all belong to stores (no `keyStoreAvailable`) add nothing
to the seen-set. -/
theorem seenAfter_storeEvents (seen : List String) (evs : List Event)
    (h : ∀ e ∈ evs, ∃ i, eventStoreId e = some i) :
    seenAfter seen evs = seen := by
  induction evs with
  | nil => rfl
  | cons e rest ih =>
      have hrest : ∀ e2 ∈ rest, ∃ i2, eventStoreId e2 = some i2 :=
        fun e2 hx => h e2 (List.mem_cons_of_mem _ hx)
      cases e with
      | keyStoreAvailable j =>
          obtain ⟨i, hei⟩ := h _ (List.mem_cons_self _ _)
          simp [eventStoreId] at hei
      | updated j => simpa [seenAfter] using ih hrest
      | unavailable j => simpa [seenAfter] using ih hrest
      | needPassphrase j => simpa [seenAfter] using ih hrest

theorem goodFrom_avails_map (seen : List String) (stores : List KeyStore) :
    goodFrom seen (stores.map fun s => Event.keyStoreAvailable s.id) = true := by
  induction stores generalizing seen with
  | nil => rfl
  | cons s rest ih =>
      simp only [List.map_cons, goodFrom]
      exact ih (s.id :: seen)

theorem mem_seenAfter_avails_map (s2 : KeyStore) (stores : List KeyStore)
    (h : s2 ∈ stores) :
    ∀ seen, s2.id ∈ seenAfter seen (stores.map fun s => Event.keyStoreAvailable s.id) := by
  induction stores with
  | nil => cases h
  | cons st rest ih =>
      intro seen
      simp only [List.map_cons, seenAfter]
      rcases List.mem_cons.mp h with heq | hmem
      · rw [heq]
        exact mem_seenAfter st.id (st.id :: seen) _ (List.mem_cons_self st.id seen)
      · exact ih hmem (st.id :: seen)

theorem writeRaw_events (s : KeyStore) (b : BackendState) (compat : Bool)
    (obj : RawObject) :
    (s.writeRaw b compat obj).2.2 = []
      ∨ (s.writeRaw b compat obj).2.2 = [Event.updated s.id] := by
  unfold KeyStore.writeRaw
  split
  · exact Or.inl rfl
  · split
    · exact Or.inl rfl
    · split
      · exact Or.inl rfl
      · exact Or.inr rfl

theorem writeEntryKB_events (s : KeyStore) (b : BackendState) (kb : KeyBundle) :
    (s.writeEntryKB b kb).2.2 = []
      ∨ (s.writeEntryKB b kb).2.2 = [Event.updated s.id] := by
  unfold KeyStore.writeEntryKB
  split
  · exact Or.inl rfl
  · exact writeRaw_events s b _ _

theorem writeEntryCert_events (s : KeyStore) (b : BackendState)
    (cert : Certificate) :
    (s.writeEntryCert b cert).2.2 = []
      ∨ (s.writeEntryCert b cert).2.2 = [Event.updated s.id] := by
  unfold KeyStore.writeEntryCert
  split
  · exact Or.inl rfl
  · exact writeRaw_events s b _ _

theorem writeEntryCRL_events (s : KeyStore) (b : BackendState) (cl : CRL) :
    (s.writeEntryCRL b cl).2.2 = []
      ∨ (s.writeEntryCRL b cl).2.2 = [Event.updated s.id] := by
  unfold KeyStore.writeEntryCRL
  split
  · exact Or.inl rfl
  · exact writeRaw_events s b _ _

theorem writeEntryPGP_events (s : KeyStore) (b : BackendState) (k : PGPKey) :
    (s.writeEntryPGP b k).2.2 = []
      ∨ (s.writeEntryPGP b k).2.2 = [Event.updated s.id] := by
  unfold KeyStore.writeEntryPGP
  split
  · exact Or.inl rfl
  · split
    · exact Or.inl rfl
    · split
      · exact Or.inl rfl
      · split
        · exact Or.inl rfl
        · exact Or.inr rfl

theorem removeEntry_events (s : KeyStore) (b : BackendState) (eid : String) :
    (s.removeEntry b eid).2.2 = []
      ∨ (s.removeEntry b eid).2.2 = [Event.updated s.id] := by
  unfold KeyStore.removeEntry
  split
  · exact Or.inl rfl
  · split
    · exact Or.inl rfl
    · split
      · exact Or.inr rfl
      · exact Or.inl rfl

/-- Appending store events of already-seen stores preserves the invariant
(the registry is unchanged). -/
theorem SysInv_extend (σ : SysState) (b2 : BackendState) (evs : List Event)
    (h : SysInv σ)
    (hevs : ∀ e ∈ evs, ∃ i, eventStoreId e = some i ∧ i ∈ seenAfter [] σ.trace) :
    SysInv { σ with backend := b2, trace := σ.trace ++ evs } := by
  constructor
  · rw [goodFrom_append, h.1, Bool.true_and]
    exact goodFrom_storeEvents _ _ hevs
  · intro s hs
    rw [seenAfter_append]
    exact mem_seenAfter _ _ _ (h.2 s hs)

/-- A discovery pass preserves the invariant: removed stores' `unavailable`
events refer to stores whose availability is already in the trace, and new
stores' availability events enter the trace together with their registry
insertion. -/
theorem SysInv_scan (σ : SysState) (h : SysInv σ) :
    SysInv (stepRun σ Step.scanStep) := by
  simp only [stepRun]
  constructor
  · rw [goodFrom_append, h.1, Bool.true_and, scan_events, goodFrom_append]
    have hrm : goodFrom (seenAfter [] σ.trace)
        ((scanRemoved σ.mgr σ.backend).map fun s => Event.unavailable s.id) = true := by
      apply goodFrom_storeEvents
      intro e he
      obtain ⟨s2, hs2, heq⟩ := List.mem_map.mp he
      refine ⟨s2.id, ?_, ?_⟩
      · rw [← heq]; rfl
      · exact h.2 s2 (List.mem_filter.mp hs2).1
    rw [hrm, Bool.true_and]
    exact goodFrom_avails_map _ _
  · intro s2 hs2
    have hse : seenAfter (seenAfter [] σ.trace)
        ((scanRemoved σ.mgr σ.backend).map fun s => Event.unavailable s.id)
        = seenAfter [] σ.trace := by
      apply seenAfter_storeEvents
      intro e he
      obtain ⟨s3, _, heq⟩ := List.mem_map.mp he
      exact ⟨s3.id, by rw [← heq]; rfl⟩
    rw [seenAfter_append, scan_events, seenAfter_append, hse]
    rw [scan_registry] at hs2
    rcases List.mem_append.mp hs2 with hs2 | hs2
    · exact mem_seenAfter _ _ _ (h.2 s2 (List.mem_filter.mp hs2).1)
    · exact mem_seenAfter_avails_map s2 _ hs2 _

/-- Every step of the modelled system preserves the invariant. -/
theorem SysInv_step (σ : SysState) (st : Step) (h : SysInv σ) :
    SysInv (stepRun σ st) := by
  cases st with
  | scanStep => exact SysInv_scan σ h
  | backendSet insts fails => exact ⟨h.1, h.2⟩
  | writeKB sid kb =>
      simp only [stepRun]
      cases hks : σ.mgr.keyStore sid with
      | none => exact h
      | some s =>
          simp only [applyOp]
          apply SysInv_extend σ _ _ h
          intro e he
          rcases writeEntryKB_events s σ.backend kb with hevs | hevs
          · rw [hevs] at he; cases he
          · rw [hevs] at he
            rcases List.mem_singleton.mp he with rfl
            have h2 : σ.mgr.registry.find? (fun x => x.id == sid) = some s := hks
            exact ⟨s.id, rfl, h.2 s (List.mem_of_find?_eq_some h2)⟩
  | writeCert sid cert =>
      simp only [stepRun]
      cases hks : σ.mgr.keyStore sid with
      | none => exact h
      | some s =>
          simp only [applyOp]
          apply SysInv_extend σ _ _ h
          intro e he
          rcases writeEntryCert_events s σ.backend cert with hevs | hevs
          · rw [hevs] at he; cases he
          · rw [hevs] at he
            rcases List.mem_singleton.mp he with rfl
            have h2 : σ.mgr.registry.find? (fun x => x.id == sid) = some s := hks
            exact ⟨s.id, rfl, h.2 s (List.mem_of_find?_eq_some h2)⟩
  | writeCRL sid cl =>
      simp only [stepRun]
      cases hks : σ.mgr.keyStore sid with
      | none => exact h
      | some s =>
          simp only [applyOp]
          apply SysInv_extend σ _ _ h
          intro e he
          rcases writeEntryCRL_events s σ.backend cl with hevs | hevs
          · rw [hevs] at he; cases he
          · rw [hevs] at he
            rcases List.mem_singleton.mp he with rfl
            have h2 : σ.mgr.registry.find? (fun x => x.id == sid) = some s := hks
            exact ⟨s.id, rfl, h.2 s (List.mem_of_find?_eq_some h2)⟩
  | writePGP sid k =>
      simp only [stepRun]
      cases hks : σ.mgr.keyStore sid with
      | none => exact h
      | some s =>
          simp only [applyOp]
          apply SysInv_extend σ _ _ h
          intro e he
          rcases writeEntryPGP_events s σ.backend k with hevs | hevs
          · rw [hevs] at he; cases he
          · rw [hevs] at he
            rcases List.mem_singleton.mp he with rfl
            have h2 : σ.mgr.registry.find? (fun x => x.id == sid) = some s := hks
            exact ⟨s.id, rfl, h.2 s (List.mem_of_find?_eq_some h2)⟩
  | removeE sid eid =>
      simp only [stepRun]
      cases hks : σ.mgr.keyStore sid with
      | none => exact h
      | some s =>
          simp only [applyOp]
          apply SysInv_extend σ _ _ h
          intro e he
          rcases removeEntry_events s σ.backend eid with hevs | hevs
          · rw [hevs] at he; cases he
          · rw [hevs] at he
            rcases List.mem_singleton.mp he with rfl
            have h2 : σ.mgr.registry.find? (fun x => x.id == sid) = some s := hks
            exact ⟨s.id, rfl, h.2 s (List.mem_of_find?_eq_some h2)⟩
  | pushNeedPassphrase sid =>
      simp only [stepRun]
      split
      · rename_i hc
        apply SysInv_extend σ σ.backend _ h
        intro e he
        rcases List.mem_singleton.mp he with rfl
        obtain ⟨s, hs, hbeq⟩ := List.any_eq_true.mp hc
        exact ⟨sid, rfl, eq_of_beq hbeq ▸ h.2 s hs⟩
      · exact h

theorem foldl_SysInv (steps : List Step) (σ : SysState) (h : SysInv σ) :
    SysInv (steps.foldl stepRun σ) := by
  induction steps generalizing σ with
  | nil => exact h
  | cons st rest ih => exact ih (stepRun σ st) (SysInv_step σ st h)

/-- The invariant holds of every reachable state of the modelled system. -/
theorem runSteps_SysInv (steps : List Step) : SysInv (runSteps steps) :=
  foldl_SysInv steps initSys ⟨rfl, fun s hs => absurd hs (List.not_mem_nil s)⟩

/-- A `keyStoreAvailable` event of a scan comes from a present backend
instance that had no registered store. -/
theorem keyStoreAvailable_mem_scan (m : KeyStoreManager) (b : BackendState)
    (i : String) (h : Event.keyStoreAvailable i ∈ (m.scan b).2) :
    ∃ inst ∈ b.instances, inst.storeId = i ∧
      (m.registry.any fun s => s.id == inst.storeId) = false := by
  rw [scan_events] at h
  rcases List.mem_append.mp h with h | h
  · obtain ⟨s2, _, heq⟩ := List.mem_map.mp h
    exact Event.noConfusion heq
  · obtain ⟨s2, hs2, heq⟩ := List.mem_map.mp h
    have hid : s2.id = i := by injection heq
    unfold scanNew at hs2
    obtain ⟨inst, hinst, hstore⟩ := List.mem_map.mp hs2
    have hmem := (List.mem_filter.mp hinst).1
    have hfil := (List.mem_filter.mp hinst).2
    refine ⟨inst, hmem, ?_, ?_⟩
    · rw [← hid, ← hstore]; rfl
    · cases hv : m.registry.any fun s => s.id == inst.storeId
      · rfl
      · rw [hv] at hfil
        exact absurd hfil (by simp)

theorem count_avails_map (i : String) (stores : List KeyStore) :
    ((stores.map fun s => Event.keyStoreAvailable s.id).count
        (Event.keyStoreAvailable i))
      = ((stores.map fun s => s.id).count i) := by
  induction stores with
  | nil => rfl
  | cons s rest ih =>
      simp only [List.map_cons, List.count_cons, ih]
      congr 1
      by_cases hv : s.id = i
      · simp [hv]
      · simp [hv]

theorem count_id_eq_one (i : String) (l : List String) (hnd : l.Nodup)
    (hm : i ∈ l) : l.count i = 1 := by
  induction l with
  | nil => cases hm
  | cons j rest ih =>
      have hnd2 := List.nodup_cons.mp hnd
      rw [List.count_cons]
      rcases List.mem_cons.mp hm with heq | hm2
      · subst heq
        rw [List.count_eq_zero.mpr hnd2.1]
        simp
      · rw [ih hnd2.2 hm2]
        have hne : (j == i) = false := by
          have hji : j ≠ i := fun hji => hnd2.1 (hji ▸ hm2)
          simp [hji]
        rw [hne]
        simp

/-- When backend instance ids are unique, one scan emits the availability
event of a newly discovered id exactly once. -/
theorem count_avail_scan (m : KeyStoreManager) (b : BackendState) (i : String)
    (hnd : (b.instances.map fun inst => inst.storeId).Nodup)
    (hev : Event.keyStoreAvailable i ∈ (m.scan b).2) :
    ((m.scan b).2.count (Event.keyStoreAvailable i)) = 1 := by
  rw [scan_events, List.count_append]
  have h1 : ((scanRemoved m b).map (fun s => Event.unavailable s.id)).count
      (Event.keyStoreAvailable i) = 0 := by
    apply List.count_eq_zero.mpr
    intro hmem
    obtain ⟨s2, _, heq⟩ := List.mem_map.mp hmem
    exact Event.noConfusion heq
  rw [h1, Nat.zero_add, count_avails_map]
  have hmap : (scanNew m b).map (fun s => s.id)
      = (b.instances.filter fun inst =>
          !(m.registry.any fun s => s.id == inst.storeId)).map
            (fun inst => inst.storeId) := by
    unfold scanNew
    rw [List.map_map]
    rfl
  rw [hmap]
  have hsub : ((b.instances.filter fun inst =>
        !(m.registry.any fun s => s.id == inst.storeId)).map
          (fun inst => inst.storeId)).Sublist
      (b.instances.map fun inst => inst.storeId) :=
    List.Sublist.map _ (List.filter_sublist _)
  have hnd2 := List.Nodup.sublist hsub hnd
  obtain ⟨inst, hmem, hid, hany⟩ := keyStoreAvailable_mem_scan m b i hev
  have hmemi : i ∈ (b.instances.filter fun inst =>
      !(m.registry.any fun s => s.id == inst.storeId)).map
        (fun inst => inst.storeId) := by
    rw [← hid]
    exact List.mem_map_of_mem _ (List.mem_filter.mpr ⟨hmem, by simp [hany]⟩)
  exact count_id_eq_one i _ hnd2 hmemi

/-- Claim C9: in every reachable trace of the modelled system, each of a
store's own events (`updated`, `unavailable`, `needPassphrase`) is preceded
in the single delivery stream by that store's `keyStoreAvailable`; within a
scan, a `keyStoreAvailable` event is only emitted for a newly discovered
store, after the store was inserted into the registry — so `keyStore(id)`
is non-null from within the handler — and, when backend instance ids are
unique, it is emitted exactly once per such discovery. -/
theorem C9_event_ordering :
    (∀ steps : List Step, goodFrom [] (runSteps steps).trace = true) ∧
    (∀ (m : KeyStoreManager) (b : BackendState) (i : String),
        Event.keyStoreAvailable i ∈ (m.scan b).2 →
        m.keyStore i = none ∧ (m.scan b).1.keyStore i ≠ none) ∧
    (∀ (m : KeyStoreManager) (b : BackendState) (i : String),
        (b.instances.map fun inst => inst.storeId).Nodup →
        Event.keyStoreAvailable i ∈ (m.scan b).2 →
        ((m.scan b).2.count (Event.keyStoreAvailable i)) = 1) := by
  refine ⟨?_, ?_, ?_⟩
  · intro steps
    exact (runSteps_SysInv steps).1
  · intro m b i hev
    obtain ⟨inst, hmem, hid, hany⟩ := keyStoreAvailable_mem_scan m b i hev
    constructor
    · unfold KeyStoreManager.keyStore
      apply List.find?_eq_none.mpr
      intro x hx hbeq
      have hall : m.registry.any (fun s => s.id == inst.storeId) = true :=
        List.any_eq_true.mpr ⟨x, hx, by rw [hid]; exact hbeq⟩
      rw [hall] at hany
      exact absurd hany (by simp)
    · unfold KeyStoreManager.keyStore
      intro hnone
      have hmem2 : storeOfInstance inst ∈ (m.scan b).1.registry := by
        rw [scan_registry]
        apply List.mem_append.mpr
        right
        unfold scanNew
        exact List.mem_map_of_mem storeOfInstance
          (List.mem_filter.mpr ⟨hmem, by simp [hany]⟩)
      have hpred : ((storeOfInstance inst).id == i) = true := by
        have hsi : (storeOfInstance inst).id = inst.storeId := rfl
        rw [hsi, hid]
        simp
      exact absurd hpred (List.find?_eq_none.mp hnone _ hmem2)
  · intro m b i hnd hev
    exact count_avail_scan m b i hnd hev

/-- Claim C9 witness: a concrete run (backend appears, scan, a write, a
passphrase prompt) has a well-ordered trace, and a concrete scan's
availability event satisfies the exactly-once and non-null-lookup parts. -/
theorem C9_event_ordering_witness :
    goodFrom [] (runSteps [Step.backendSet exInstances [], Step.scanStep,
        Step.writeCert "app:0" { data := some 1 },
        Step.pushNeedPassphrase "gpg:0"]).trace = true ∧
    (Event.keyStoreAvailable "system:0" ∈ (exMgr0.scan exBackend).2 ∧
     (exMgr0.scan exBackend).1.keyStore "system:0" ≠ none) ∧
    ((exBackend.instances.map fun inst => inst.storeId).Nodup ∧
     ((exMgr0.scan exBackend).2.count (Event.keyStoreAvailable "system:0")) = 1) :=
  ⟨C9_event_ordering.1 [Step.backendSet exInstances [], Step.scanStep,
      Step.writeCert "app:0" { data := some 1 },
      Step.pushNeedPassphrase "gpg:0"],
   ⟨by decide,
    (C9_event_ordering.2.1 exMgr0 exBackend "system:0" (by decide)).2⟩,
   ⟨by decide,
    C9_event_ordering.2.2 exMgr0 exBackend "system:0" (by decide) (by decide)⟩⟩

/-- Claim C8: the header's own doc text announces a `keyBundle()` accessor,
but the doc comment opened at line 90 is never closed before the
declaration, so after comment stripping the region contains no `keyBundle`
token at all while the neighbouring `certificate()` declaration survives —
the accessor is swallowed by the unterminated comment and absent from the
compiled interface. -/
theorem C8_keyBundle_swallowed_by_comment :
    hasSub ("keyBundle".toList) (keyBundleRegion.toList) = true ∧
    hasSub ("keyBundle".toList) (stripCComments false (keyBundleRegion.toList)) = false ∧
    hasSub ("Certificate certificate() const;".toList)
      (stripCComments false (keyBundleRegion.toList)) = true := by
  decide

end QCAKeyStore
